import Mathlib

/-!
Verification of the binary resolution and provisioning engine of the
postgres-language-server VS Code extension, shallowly embedded from the
TypeScript sources (binary-finder.ts, binary-finder-strategies.ts,
config.ts, constants.ts, downloader.ts, renaming.ts, session.ts).
Filesystem, module-resolution, network and UI effects are supplied by an
explicit environment record; every function below is a direct
translation of the corresponding source function.
-/

namespace Pgls

/-- Strategy identity, from the `StrategyKind` enum in binary-finder.ts. -/
inductive StrategyKind where
  | NPM
  | Yarn
  | VsCodeSettings
  | Path
  | Download
deriving DecidableEq, Repr

/-- One entry of the strategy chain (the `Strategy` record type in
binary-finder.ts): a labelled find strategy with an optional
precondition.  `find` returns `Except.error` when the underlying
`strategy.find(path)` promise rejects, `Except.ok none` when it resolves
to `null`, and `Except.ok (some loc)` on success.  The `onSuccess`
callback of the source only logs, so it is modelled by the
`onSuccessCalled` trace event rather than by a function field. -/
structure Strategy (Ctx α : Type) where
  label : String
  kind : StrategyKind
  find : Ctx → Except String (Option α)
  condition : Option (Ctx → Bool)

/-- Observable actions of one `BinaryFinder.attemptFind` run. -/
inductive ChainEvent (α : Type) where
  | condEvaluated (i : Nat) (result : Bool)
  | findCalled (i : Nat)
  | notFoundLogged (i : Nat)
  | errorLogged (i : Nat) (msg : String)
  | onSuccessCalled (i : Nat) (loc : α)
deriving DecidableEq, Repr

/-- Index of the strategy an event belongs to. -/
def ChainEvent.idx {α : Type} : ChainEvent α → Nat
  | .condEvaluated i _ => i
  | .findCalled i => i
  | .notFoundLogged i => i
  | .errorLogged i _ => i
  | .onSuccessCalled i _ => i

/-- Return value of `attemptFind`: the `{ bin: binary, label, kind }`
object of binary-finder.ts line 141. -/
structure FindResult (α : Type) where
  bin : α
  label : String
  kind : StrategyKind
deriving DecidableEq, Repr

/-- The `if (condition && !(await condition(path))) continue;` skip test:
a strategy participates when its precondition is absent or true. -/
def condPasses {Ctx α : Type} (s : Strategy Ctx α) (ctx : Ctx) : Bool :=
  match s.condition with
  | none => true
  | some c => c ctx

/-- Trace events produced by evaluating a strategy's precondition. -/
def condEvents {Ctx α : Type} (s : Strategy Ctx α) (ctx : Ctx) (i : Nat) :
    List (ChainEvent α) :=
  match s.condition with
  | none => []
  | some c => [ChainEvent.condEvaluated i (c ctx)]

/-- `BinaryFinder.attemptFind`, binary-finder.ts lines 131-152, with an
explicit start index and an event trace recording which strategies were
evaluated.  An error thrown by `strategy.find` is caught, logged and the
loop continues (the `catch` branch); the first non-null result triggers
`onSuccess` and returns; if the loop ends, the result is `none`
(`undefined` in the source). -/
def attemptFindAux {Ctx α : Type} (ctx : Ctx) :
    Nat → List (Strategy Ctx α) → Option (FindResult α) × List (ChainEvent α)
  | _, [] => (none, [])
  | i, s :: rest =>
    if condPasses s ctx then
      match s.find ctx with
      | Except.ok (some loc) =>
          (some ⟨loc, s.label, s.kind⟩,
            condEvents s ctx i ++
              [ChainEvent.findCalled i, ChainEvent.onSuccessCalled i loc])
      | Except.ok none =>
          ((attemptFindAux ctx (i + 1) rest).1,
            condEvents s ctx i ++ ChainEvent.findCalled i ::
              ChainEvent.notFoundLogged i :: (attemptFindAux ctx (i + 1) rest).2)
      | Except.error e =>
          ((attemptFindAux ctx (i + 1) rest).1,
            condEvents s ctx i ++ ChainEvent.findCalled i ::
              ChainEvent.errorLogged i e :: (attemptFindAux ctx (i + 1) rest).2)
    else
      ((attemptFindAux ctx (i + 1) rest).1,
        condEvents s ctx i ++ (attemptFindAux ctx (i + 1) rest).2)

/-- The strategy chain resolver (`attemptFind` called with index 0). -/
def attemptFind {Ctx α : Type} (strategies : List (Strategy Ctx α)) (ctx : Ctx) :
    Option (FindResult α) × List (ChainEvent α) :=
  attemptFindAux ctx 0 strategies

/-- Claim-side success predicate for one strategy: its precondition
(when defined) evaluates true and its locate yields a non-empty result. -/
def hits {Ctx α : Type} (s : Strategy Ctx α) (ctx : Ctx) : Option α :=
  if condPasses s ctx then
    match s.find ctx with
    | Except.ok (some loc) => some loc
    | _ => none
  else none

/-- `process.platform` and `process.arch`, as read in constants.ts. -/
structure Platform where
  platform : String
  arch : String
deriving DecidableEq, Repr

/-- constants.ts `OperatingMode`. -/
inductive OperatingMode where
  | SingleFile
  | SingleRoot
  | MultiRoot
deriving DecidableEq, Repr

def newPackageName : String := "@postgres-language-server/cli"

def oldPackageName : String := "@postgrestools/postgrestools"

/-- constants.ts `OLD_PACKAGE_NAMES[platform]?.[arch]`. -/
def oldPlatformSpecificNodePackageName (pl : Platform) : Option String :=
  if pl.platform = "win32" then
    if pl.arch = "x64" then some "@postgrestools/cli-x86_64-windows-msvc"
    else if pl.arch = "arm64" then some "@postgrestools/cli-aarch64-windows-msvc"
    else none
  else if pl.platform = "darwin" then
    if pl.arch = "x64" then some "@postgrestools/cli-x86_64-apple-darwin"
    else if pl.arch = "arm64" then some "@postgrestools/cli-aarch64-apple-darwin"
    else none
  else if pl.platform = "linux" then
    if pl.arch = "x64" then some "@postgrestools/cli-x86_64-linux-gnu"
    else if pl.arch = "arm64" then some "@postgrestools/cli-aarch64-linux-gnu"
    else none
  else none

/-- constants.ts `NEW_PACKAGE_NAMES[platform]?.[arch]`. -/
def newPlatformSpecificNodePackageName (pl : Platform) : Option String :=
  if pl.platform = "win32" then
    if pl.arch = "x64" then some "@postgres-language-server/cli-x86_64-windows-msvc"
    else if pl.arch = "arm64" then some "@postgres-language-server/cli-aarch64-windows-msvc"
    else none
  else if pl.platform = "darwin" then
    if pl.arch = "x64" then some "@postgres-language-server/cli-x86_64-apple-darwin"
    else if pl.arch = "arm64" then some "@postgres-language-server/cli-aarch64-apple-darwin"
    else none
  else if pl.platform = "linux" then
    if pl.arch = "x64" then some "@postgres-language-server/cli-x86_64-linux-gnu"
    else if pl.arch = "arm64" then some "@postgres-language-server/cli-aarch64-linux-gnu"
    else none
  else none

/-- constants.ts `archMappings` (at most one key equals `process.arch`,
so the source's append-in-a-loop equals this lookup). -/
def archMappings (a : String) : Option String :=
  if a = "arm64" then some "aarch64"
  else if a = "x64" then some "x86_64"
  else none

/-- constants.ts `platformMappings`. -/
def platformMappings (p : String) : Option String :=
  if p = "darwin" then some "apple-darwin"
  else if p = "linux" then some "unknown-linux-gnu"
  else if p = "win32" then some "pc-windows-msvc"
  else none

def oldPlatformSpecificBinaryName (pl : Platform) : String :=
  "postgrestools" ++ (if pl.platform = "win32" then ".exe" else "")

def newPlatformSpecificBinaryName (pl : Platform) : String :=
  "postgres-language-server" ++ (if pl.platform = "win32" then ".exe" else "")

def oldPlatformSpecificReleasedAssetName (pl : Platform) : String :=
  ("postgrestools" ++
    (match archMappings pl.arch with
     | some r => "_" ++ r
     | none => "")) ++
  (match platformMappings pl.platform with
   | some r => "-" ++ r
   | none => "")

def newPlatformSpecificReleasedAssetName (pl : Platform) : String :=
  ("postgres-language-server" ++
    (match archMappings pl.arch with
     | some r => "_" ++ r
     | none => "")) ++
  (match platformMappings pl.platform with
   | some r => "-" ++ r
   | none => "")

/-- constants.ts `platformIdentifier`. -/
def platformIdentifier (pl : Platform) : String :=
  pl.platform ++ "-" ++ pl.arch

/-- JS `s.startsWith(pre)`, computed on the character lists so concrete
instances reduce by `decide`. -/
def strStartsWith (s pre : String) : Bool :=
  pre.data.isPrefixOf s.data

/-- Helper for `strSplit`: accumulates the current segment (reversed). -/
def strSplitAux (d : Char) : List Char → List Char → List String
  | [], acc => [String.mk acc.reverse]
  | c :: rest, acc =>
      if c = d then String.mk acc.reverse :: strSplitAux d rest []
      else strSplitAux d rest (c :: acc)

/-- JS `s.split(d)` for a one-character delimiter (`node:path`'s
`delimiter` is one character on every platform). -/
def strSplit (s : String) (d : Char) : List String :=
  strSplitAux d s.data []

/-- Replace the first occurrence of `pat` (on character lists).  JS
`String.prototype.replace` with a string pattern replaces only the first
occurrence, unlike Lean's `String.replace`. -/
def replaceFirstList (pat rep : List Char) : List Char → List Char
  | [] => []
  | c :: rest =>
      if pat.isPrefixOf (c :: rest) then rep ++ (c :: rest).drop pat.length
      else c :: replaceFirstList pat rep rest

/-- JS `s.replace(pat, rep)` (first occurrence only). -/
def jsReplaceFirst (s pat rep : String) : String :=
  String.mk (replaceFirstList pat.data rep.data s.data)

/-- Join a list of strings with a separator. -/
def joinWith (sep : String) : List String → String
  | [] => ""
  | [x] => x
  | x :: rest => x ++ sep ++ joinWith sep rest

/-- `node:path`'s `dirname` restricted to the slash-separated paths the
strategies build (drops the last `/`-separated component). -/
def dirname (p : String) : String :=
  let parts := strSplit p '/'
  if parts.length ≤ 1 then "." else joinWith "/" parts.dropLast

/-- Membership of a string in a list, by decidable equality. -/
def strContains (l : List String) (p : String) : Bool :=
  match l with
  | [] => false
  | q :: rest => if q = p then true else strContains rest p

/-- First value stored under a key (JS object lookup; keys are unique). -/
def lookupStr (entries : List (String × String)) (k : String) : Option String :=
  match entries with
  | [] => none
  | (k', v) :: rest => if k' = k then some v else lookupStr rest k

/-- The value of the `bin` setting as returned by `getConfig("bin")`:
absent, a plain string, or an object keyed by platform identifier. -/
inductive BinSetting where
  | unset
  | str (s : String)
  | obj (entries : List (String × String))
deriving DecidableEq, Repr

/-- Outcome of a `require.resolve` call: resolved path, a
"cannot find module" error (the only error the node-modules strategy
catches), or any other thrown error. -/
inductive RResult where
  | found (p : String)
  | notFound
  | failure (msg : String)
deriving DecidableEq, Repr

/-- User-visible side effects of the settings strategy. -/
inductive UiEvent where
  | errorMessage (msg : String)
  | logError (msg : String)
deriving DecidableEq, Repr

/-- The ambient world the strategies read: platform constants, the
workspace configuration, the filesystem, the module resolvers, the PATH
variable, the extension's global storage, the version probe
(`getVersion`; `none` covers both a missing binary and unparsable
output), and the download collaborators (consent prompt, version picker,
asset-name probe, network fetch and the write/chmod/mkdir/copy outcomes
of the filesystem layer). -/
structure Env where
  pl : Platform
  operatingMode : OperatingMode
  files : List String
  binSetting : BinSetting
  pnpResolve : String → String → Option String
  requireResolve1 : String → String → RResult
  requireResolve2 : String → String → RResult
  pathEnv : Option String
  pathDelimiter : Char
  globalStorageUri : String
  getVersion : String → Option String
  downloadConsent : Bool
  promptVersionPick : Option String
  hasNewName : Bool
  fetch : String → Except String Nat
  writeOutcome : Except String Unit
  chmodOutcome : Except String Unit
  mkdirOk : Bool
  copyOk : Bool
  chmodOk : Bool

/-- `fileExists` from utils.ts as observed through the environment's
set of existing files. -/
def fileExists (env : Env) (p : String) : Bool :=
  strContains env.files p

/-- The filesystem after a file has been created at `p`. -/
def Env.addFile (env : Env) (p : String) : Env :=
  { env with files := p :: env.files }

def multiRootErrorMsg : String :=
  "Relative paths for the postgres language server binary in a multi-root workspace setting are not supported. Please use an absolute path in your `*.code-workspace` file."

def cantHappenMsg : String :=
  "User picked a relative path for setting and is not in multi-root workspace mode. Somehow, we couldn\x27t form a path to the binary."

/-- Tail of `vsCodeSettingsStrategy.find` once the setting has been
narrowed to a string (binary-finder-strategies.ts lines 71-106):
existence check of the resolved path.  `Uri.joinPath(path, binSetting)`
is modelled as slash concatenation. -/
def settingsCheckExists (env : Env) (r : String) : Option String × List UiEvent :=
  if r = "" then (none, [])
  else if fileExists env r then (some r, []) else (none, [])

/-- The string branch of `vsCodeSettingsStrategy.find`: paths starting
with "." are anchored at the project root, rejected with a user error in
multi-root mode, and logged as impossible when no root is available. -/
def settingsFromString (env : Env) (path : Option String) (s : String) :
    Option String × List UiEvent :=
  if strStartsWith s "." then
    if env.operatingMode = OperatingMode.MultiRoot then
      (none, [UiEvent.errorMessage multiRootErrorMsg])
    else
      match path with
      | some p => settingsCheckExists env (p ++ "/" ++ s)
      | none => (none, [UiEvent.logError cantHappenMsg])
  else settingsCheckExists env s

/-- `vsCodeSettingsStrategy.find`, binary-finder-strategies.ts lines
35-114.  A falsy setting (`undefined` or `""`) is "not set"; an object
setting is narrowed through the platform identifier (staying an object,
hence yielding null, when the key is missing or its value falsy). -/
def vsCodeSettingsFind (env : Env) (path : Option String) :
    Option String × List UiEvent :=
  match env.binSetting with
  | BinSetting.unset => (none, [])
  | BinSetting.str s =>
      if s = "" then (none, []) else settingsFromString env path s
  | BinSetting.obj entries =>
      match lookupStr entries (platformIdentifier env.pl) with
      | some v => if v = "" then (none, []) else settingsFromString env path v
      | none => (none, [])

/-- The two (package, platform-package, binary-name) triples tried by
the node-modules and Yarn PnP strategies, current name first. -/
def nmPairs (pl : Platform) : List (String × Option String × String) :=
  [(newPackageName, newPlatformSpecificNodePackageName pl,
      newPlatformSpecificBinaryName pl),
   (oldPackageName, oldPlatformSpecificNodePackageName pl,
      oldPlatformSpecificBinaryName pl)]

/-- Loop body of `nodeModulesStrategy.find`, binary-finder-strategies.ts
lines 136-212.  The first `require.resolve` is wrapped in try/catch and
a "cannot find module" failure moves to the next package; any other
error is rethrown.  An undefined platform package returns null.  The
second resolve is NOT wrapped, so any failure there propagates as a
thrown error. -/
def nodeModulesGo (env : Env) (p : String) :
    List (String × Option String × String) → Except String (Option String)
  | [] => Except.ok none
  | (pkgname, nodePkgName, binaryName) :: rest =>
    match env.requireResolve1 (pkgname ++ "/package.json") p with
    | RResult.notFound => nodeModulesGo env p rest
    | RResult.failure m => Except.error m
    | RResult.found mainPkgJson =>
      match nodePkgName with
      | none => Except.ok none
      | some npkg =>
        match env.requireResolve2 (npkg ++ "/package.json") mainPkgJson with
        | RResult.found binPkgJson =>
            let binPath := dirname binPkgJson ++ "/" ++ binaryName
            if fileExists env binPath then Except.ok (some binPath)
            else nodeModulesGo env p rest
        | RResult.notFound =>
            Except.error ("Cannot find module " ++ npkg ++ "/package.json")
        | RResult.failure m => Except.error m

/-- `nodeModulesStrategy.find`. -/
def nodeModulesFind (env : Env) (path : Option String) :
    Except String (Option String) :=
  match path with
  | none => Except.ok none
  | some p => nodeModulesGo env p (nmPairs env.pl)

/-- Package loop of `yarnPnpStrategy.find`, binary-finder-strategies.ts
lines 250-295.  Both `resolveRequest` calls sit in one try/catch whose
`catch` just moves to the next package (`none` models a throw); an
undefined platform package also just continues. -/
def yarnPkgGo (env : Env) (p : String) :
    List (String × Option String × String) → Option String
  | [] => none
  | (pkgname, nodePkgName, binaryName) :: rest =>
    match nodePkgName with
    | none => yarnPkgGo env p rest
    | some npkg =>
      match env.pnpResolve (pkgname ++ "/package.json") p with
      | none => yarnPkgGo env p rest
      | some packageJson =>
        match env.pnpResolve (npkg ++ "/" ++ binaryName) packageJson with
        | none => yarnPkgGo env p rest
        | some bin => some bin

/-- Manifest-extension loop of `yarnPnpStrategy.find` (`.pnp.cjs` then
`.pnp.js`).  Note the returned binary path is used as-is: no existence
check is performed on it. -/
def yarnExtGo (env : Env) (p : String) : List String → Option String
  | [] => none
  | ext :: rest =>
    if fileExists env (p ++ "/.pnp." ++ ext) then
      match yarnPkgGo env p (nmPairs env.pl) with
      | some bin => some bin
      | none => yarnExtGo env p rest
    else yarnExtGo env p rest

/-- `yarnPnpStrategy.find`. -/
def yarnPnpFind (env : Env) (path : Option String) :
    Except String (Option String) :=
  match path with
  | none => Except.ok none
  | some p => Except.ok (yarnExtGo env p ["cjs", "js"])

/-- Directory loop of `pathEnvironmentVariableStrategy.find`: in each
PATH entry try the current binary name, then the legacy one. -/
def pathDirGo (env : Env) : List String → Option String
  | [] => none
  | dir :: rest =>
    if fileExists env (dir ++ "/" ++ newPlatformSpecificBinaryName env.pl) then
      some (dir ++ "/" ++ newPlatformSpecificBinaryName env.pl)
    else if fileExists env (dir ++ "/" ++ oldPlatformSpecificBinaryName env.pl) then
      some (dir ++ "/" ++ oldPlatformSpecificBinaryName env.pl)
    else pathDirGo env rest

/-- `pathEnvironmentVariableStrategy.find`, binary-finder-strategies.ts
lines 306-339 (a falsy PATH yields null). -/
def pathEnvFind (env : Env) : Except String (Option String) :=
  match env.pathEnv with
  | none => Except.ok none
  | some s =>
      if s = "" then Except.ok none
      else Except.ok (pathDirGo env (strSplit s env.pathDelimiter))

def newInstalledBinaryPath (env : Env) : String :=
  env.globalStorageUri ++ "/global-bin/" ++ newPlatformSpecificBinaryName env.pl

def oldInstalledBinaryPath (env : Env) : String :=
  env.globalStorageUri ++ "/global-bin/" ++ oldPlatformSpecificBinaryName env.pl

/-- Loop of `getDownloadedBinary`, downloader.ts lines 89-111: for each
well-known install path that exists, probe its version; a file that
exists but yields no version is an invariant violation thrown as an
`Error`. -/
def getDownloadedBinaryGo (env : Env) :
    List String → Except String (Option (String × String))
  | [] => Except.ok none
  | bin :: rest =>
    if fileExists env bin then
      match env.getVersion bin with
      | none => Except.error "Just verified file exists, but it doesn\x27t anymore."
      | some v => Except.ok (some (bin, v))
    else getDownloadedBinaryGo env rest

/-- `getDownloadedBinary`, downloader.ts lines 83-114 (returns the
binary path together with its probed version). -/
def getDownloadedBinary (env : Env) : Except String (Option (String × String)) :=
  getDownloadedBinaryGo env [newInstalledBinaryPath env, oldInstalledBinaryPath env]

/-- The release-asset URL built in `downloadPgltVersion`. -/
def downloadUrl (env : Env) (version : String) : String :=
  "https://github.com/supabase-community/postgres-language-server/releases/download/" ++
    version ++ "/" ++
    (if env.hasNewName then newPlatformSpecificReleasedAssetName env.pl
     else oldPlatformSpecificReleasedAssetName env.pl)

/-- Observable effects of one `downloadPgltVersion` run. -/
structure DownloadRun where
  writes : List (String × Nat)
  chmods : List String
  messages : List String
deriving DecidableEq, Repr

/-- `downloadPgltVersion`, downloader.ts lines 39-81: fetch the asset
(any network failure is caught, shown to the user with URL and version,
and aborts with nothing written), then write it to the well-known
install path and make it executable (a failure there is caught and
shown as "Failed to save binary"). -/
def downloadPgltVersion (env : Env) (version : String) : DownloadRun :=
  let url := downloadUrl env version
  match env.fetch url with
  | Except.error e =>
      { writes := [], chmods := [],
        messages := ["Failed to download binary version " ++ version ++
          " from " ++ url ++ ".\n\n" ++ e] }
  | Except.ok bytes =>
      let binPath :=
        if env.hasNewName then newInstalledBinaryPath env
        else oldInstalledBinaryPath env
      match env.writeOutcome with
      | Except.error e =>
          { writes := [], chmods := [],
            messages := ["Failed to save binary.\n\n" ++ e] }
      | Except.ok _ =>
          match env.chmodOutcome with
          | Except.error e =>
              { writes := [(binPath, bytes)], chmods := [],
                messages := ["Failed to save binary.\n\n" ++ e] }
          | Except.ok _ =>
              { writes := [(binPath, bytes)], chmods := [binPath],
                messages := ["Downloaded Postgres Language Server " ++ version ++
                  " to " ++ binPath] }

/-- `downloadPglt`, downloader.ts lines 16-37: prompt for a version,
download it, then re-derive the installed binary from disk. -/
def downloadPglt (env : Env) : Except String (Option String) :=
  match env.promptVersionPick with
  | none => Except.ok none
  | some version =>
    let run := downloadPgltVersion env version
    let env2 := run.writes.foldl (fun e w => e.addFile w.1) env
    match getDownloadedBinary env2 with
    | Except.error m => Except.error m
    | Except.ok r => Except.ok (r.map (fun d => d.1))

/-- `downloadPgltStrategy.find`, binary-finder-strategies.ts lines
341-370: reuse a previously downloaded binary; otherwise ask for
consent and only then download.  Declining yields null. -/
def downloadStrategyFind (env : Env) : Except String (Option String) :=
  match getDownloadedBinary env with
  | Except.error m => Except.error m
  | Except.ok (some d) => Except.ok (some d.1)
  | Except.ok none =>
      if env.downloadConsent then downloadPglt env else Except.ok none

/-- LOCAL_STRATEGIES entry "VSCode Settings" (UI events discarded by the
chain, which only sees the returned location). -/
def vsCodeSettingsStrategyS (env : Env) : Strategy (Option String) String :=
  { label := "VSCode Settings", kind := StrategyKind.VsCodeSettings,
    find := fun p => Except.ok (vsCodeSettingsFind env p).1, condition := none }

def nodeModulesStrategyS (env : Env) : Strategy (Option String) String :=
  { label := "NPM node_modules", kind := StrategyKind.NPM,
    find := fun p => nodeModulesFind env p, condition := none }

def yarnPnpStrategyS (env : Env) : Strategy (Option String) String :=
  { label := "Yarn Plug\x27n\x27Play node_modules", kind := StrategyKind.Yarn,
    find := fun p => yarnPnpFind env p, condition := none }

def pathEnvStrategyS (env : Env) : Strategy (Option String) String :=
  { label := "PATH Environment Variable", kind := StrategyKind.Path,
    find := fun _ => pathEnvFind env, condition := none }

def downloadStrategyS (env : Env) : Strategy (Option String) String :=
  { label := "Downloaded Binary", kind := StrategyKind.Download,
    find := fun _ => downloadStrategyFind env, condition := none }

/-- `LOCAL_STRATEGIES`, binary-finder.ts lines 28-77. -/
def localStrategies (env : Env) : List (Strategy (Option String) String) :=
  [vsCodeSettingsStrategyS env, nodeModulesStrategyS env, yarnPnpStrategyS env,
   pathEnvStrategyS env, downloadStrategyS env]

/-- `GLOBAL_STRATEGIES`, binary-finder.ts lines 78-106. -/
def globalStrategies (env : Env) : List (Strategy (Option String) String) :=
  [vsCodeSettingsStrategyS env, pathEnvStrategyS env, downloadStrategyS env]

/-- Observable effects of one `copyBinaryToTemporaryLocation` run. -/
structure ProvisionResult where
  result : Option String
  copies : List (String × String)
  chmods : List String
  userErrors : List String
  warned : Bool
deriving DecidableEq, Repr

/-- The version-keyed cache path built in `copyBinaryToTemporaryLocation`:
`{globalStorage}/tmp-bin/` plus the platform binary name with the version
spliced in after the base name. -/
def provisionCachePath (env : Env) (versionTag : String) : String :=
  env.globalStorageUri ++ "/tmp-bin/" ++
    jsReplaceFirst (newPlatformSpecificBinaryName env.pl)
      "postgres-language-server" ("postgres-language-server-" ++ versionTag)

def provisionInvalidStateMsg : String :=
  "Tried to copy binary to temporary location, but it does not exist. Invalid state."

/-- `copyBinaryToTemporaryLocation`, session.ts lines 141-204.  The
version is re-probed; when the probe yields nothing the code shows a
user-facing error message and FALLS THROUGH, building the cache path
with the JS string `"undefined"` (template-literal interpolation of an
undefined value).  Inside the try block: create `tmp-bin`, copy the
binary there unless a file for this version already exists, then chmod
the copied file; any thrown filesystem error is caught, logged as a
warning, and the function returns `undefined`. -/
def copyBinaryToTemporaryLocation (env : Env) (bin : String) : ProvisionResult :=
  let version := env.getVersion bin
  let userErrors :=
    match version with
    | none => [provisionInvalidStateMsg]
    | some _ => []
  let location :=
    provisionCachePath env
      (match version with
       | some v => v
       | none => "undefined")
  if env.mkdirOk then
    if fileExists env location then
      if env.chmodOk then
        { result := some location, copies := [], chmods := [location],
          userErrors := userErrors, warned := false }
      else
        { result := none, copies := [], chmods := [],
          userErrors := userErrors, warned := true }
    else
      if env.copyOk then
        if env.chmodOk then
          { result := some location, copies := [(bin, location)],
            chmods := [location], userErrors := userErrors, warned := false }
        else
          { result := none, copies := [(bin, location)], chmods := [],
            userErrors := userErrors, warned := true }
      else
        { result := none, copies := [], chmods := [],
          userErrors := userErrors, warned := true }
  else
    { result := none, copies := [], chmods := [],
      userErrors := userErrors, warned := true }

/-- A workspace configuration value as JS sees it. -/
inductive ConfigVal where
  | undef
  | nullv
  | str (s : String)
  | boolv (b : Bool)
  | obj (entries : List (String × String))
deriving DecidableEq, Repr

def ConfigVal.isBoolean : ConfigVal → Bool
  | .boolv _ => true
  | _ => false

/-- `getConfig`, config.ts lines 38-66: the value under the new
"postgres-language-server" prefix wins only when it is defined, not the
empty string, not null and not a boolean; otherwise the value under the
legacy "postgrestools" prefix is returned. -/
def getConfig (newValue oldValue : ConfigVal) : ConfigVal :=
  if newValue ≠ ConfigVal.undef ∧ newValue ≠ ConfigVal.str "" ∧
      newValue ≠ ConfigVal.nullv ∧ newValue.isBoolean = false
  then newValue
  else oldValue

/-- Modelled from the spec: `daysToMs` lives in utils.ts, which is not
among the provided sources; the spec's "3-day window" (§ session
notification) fixes the standard days-to-milliseconds conversion. -/
def daysToMs (days : Int) : Int :=
  days * 24 * 60 * 60 * 1000

/-- `updateAndRenamingMessageForKind`, renaming.ts lines 17-30: total
over all strategy identities (the source's `default` branch is a
compile-time-unreachable trap). -/
def updateAndRenamingMessageForKind : StrategyKind → String
  | StrategyKind.NPM | StrategyKind.Yarn =>
      "A new version of the Postgres Language Server is available! Make sure to use the new `@postgres-language-server/cli` package, as the old `@postgrestools/postgrestools` is being phased out."
  | StrategyKind.Download | StrategyKind.Path | StrategyKind.VsCodeSettings =>
      "A new version of the Postgres Language Server is available! Make sure to get the binary from the new `postgres-language-server` name, as the old `postgrestools` is being phased out."

/-- The outdated-version notification block of `createSession`,
session.ts lines 71-88.  `now` and the stored `lastNotifiedOfUpdate`
are epoch milliseconds (`none` models an absent key, defaulted to epoch
0).  Returns the notification shown (if any) and the new stored
timestamp: whenever more than 3 days have elapsed the timestamp is
overwritten with `now`, even when no notification is shown. -/
def checkUpdateNotification (now : Int) (stored : Option Int) (outdated : Bool)
    (hasNewNameB : Bool) (kind : StrategyKind) (version latest : String) :
    Option String × Option Int :=
  let last : Int := stored.getD 0
  if now - last > daysToMs 3 then
    (if outdated then
        some (if hasNewNameB then updateAndRenamingMessageForKind kind
          else "A new version of Postgres Language Server is available! Your version " ++
            version ++ " is outdated, consider updating to latest version " ++
            latest ++ ".")
      else none,
     some now)
  else (none, stored)

lemma lastConcat {β : Type} (a : β) (l : List β) : (l ++ [a]).getLast? = some a := by
  induction l with
  | nil => rfl
  | cons b t ih =>
      cases t with
      | nil => rfl
      | cons c t' =>
          rw [List.cons_append, List.cons_append, List.getLast?_cons_cons]
          exact ih

lemma condEvents_idx {Ctx α : Type} (s : Strategy Ctx α) (ctx : Ctx) (i : Nat) :
    ∀ e ∈ condEvents s ctx i, e.idx = i := by
  cases hc : s.condition <;> simp [condEvents, hc, ChainEvent.idx]

lemma onSuccess_not_mem_condEvents {Ctx α : Type} {s : Strategy Ctx α} {ctx : Ctx}
    {i j : Nat} {loc : α} :
    ChainEvent.onSuccessCalled j loc ∉ condEvents s ctx i := by
  cases hc : s.condition <;> simp [condEvents, hc]

lemma hits_some_elim {Ctx α : Type} {s : Strategy Ctx α} {ctx : Ctx} {loc : α}
    (h : hits s ctx = some loc) :
    condPasses s ctx = true ∧ s.find ctx = Except.ok (some loc) := by
  unfold hits at h
  cases hc : condPasses s ctx with
  | false => rw [hc] at h; simp at h
  | true =>
      rw [hc] at h
      cases hf : s.find ctx with
      | error e => rw [hf] at h; simp at h
      | ok o =>
          cases o with
          | none => rw [hf] at h; simp at h
          | some l =>
              rw [hf] at h
              simp at h
              subst h
              exact ⟨rfl, rfl⟩

lemma hit_step {Ctx α : Type} {s : Strategy Ctx α} {ctx : Ctx} {loc : α}
    (h : hits s ctx = some loc) (i : Nat) (rest : List (Strategy Ctx α)) :
    attemptFindAux ctx i (s :: rest) =
      (some ⟨loc, s.label, s.kind⟩,
        condEvents s ctx i ++
          [ChainEvent.findCalled i, ChainEvent.onSuccessCalled i loc]) := by
  obtain ⟨hc, hf⟩ := hits_some_elim h
  simp [attemptFindAux, hc, hf]

lemma miss_step {Ctx α : Type} {s : Strategy Ctx α} {ctx : Ctx}
    (h : hits s ctx = none) (i : Nat) (rest : List (Strategy Ctx α)) :
    ∃ tr0 : List (ChainEvent α), (∀ e ∈ tr0, e.idx = i) ∧
      attemptFindAux ctx i (s :: rest) =
        ((attemptFindAux ctx (i + 1) rest).1,
          tr0 ++ (attemptFindAux ctx (i + 1) rest).2) := by
  cases hc : condPasses s ctx with
  | false =>
      exact ⟨condEvents s ctx i, condEvents_idx s ctx i, by simp [attemptFindAux, hc]⟩
  | true =>
      cases hf : s.find ctx with
      | error e =>
          refine ⟨condEvents s ctx i ++
            [ChainEvent.findCalled i, ChainEvent.errorLogged i e], ?_, ?_⟩
          · intro x hx
            rcases List.mem_append.mp hx with hx | hx
            · exact condEvents_idx s ctx i x hx
            · simp at hx
              rcases hx with rfl | rfl <;> simp [ChainEvent.idx]
          · simp [attemptFindAux, hc, hf]
      | ok o =>
          cases o with
          | some l =>
              exfalso
              unfold hits at h
              rw [hc, hf] at h
              simp at h
          | none =>
              refine ⟨condEvents s ctx i ++
                [ChainEvent.findCalled i, ChainEvent.notFoundLogged i], ?_, ?_⟩
              · intro x hx
                rcases List.mem_append.mp hx with hx | hx
                · exact condEvents_idx s ctx i x hx
                · simp at hx
                  rcases hx with rfl | rfl <;> simp [ChainEvent.idx]
              · simp [attemptFindAux, hc, hf]

lemma skipMisses {Ctx α : Type} {ctx : Ctx} (pre : List (Strategy Ctx α))
    (i : Nat) (l : List (Strategy Ctx α)) (hmiss : ∀ t ∈ pre, hits t ctx = none) :
    ∃ tr0 : List (ChainEvent α),
      (∀ e ∈ tr0, i ≤ e.idx ∧ e.idx < i + pre.length) ∧
      attemptFindAux ctx i (pre ++ l) =
        ((attemptFindAux ctx (i + pre.length) l).1,
          tr0 ++ (attemptFindAux ctx (i + pre.length) l).2) := by
  induction pre generalizing i with
  | nil => exact ⟨[], by simp, by simp⟩
  | cons t pre' ih =>
      obtain ⟨tr1, h1idx, h1⟩ := miss_step (hmiss t (by simp)) i (pre' ++ l)
      obtain ⟨tr2, h2idx, h2⟩ := ih (i + 1) (fun u hu => hmiss u (by simp [hu]))
      refine ⟨tr1 ++ tr2, ?_, ?_⟩
      · intro e he
        rcases List.mem_append.mp he with he | he
        · have h3 := h1idx e he
          constructor
          · omega
          · simp only [List.length_cons]
            omega
        · have h3 := h2idx e he
          obtain ⟨h4, h5⟩ := h3
          constructor
          · omega
          · simp only [List.length_cons]
            omega
      · rw [List.cons_append, h1, h2]
        have harith : i + 1 + pre'.length = i + (t :: pre').length := by
          simp only [List.length_cons]
          omega
        rw [harith, List.append_assoc]

lemma allMiss_none {Ctx α : Type} {ctx : Ctx} (l : List (Strategy Ctx α))
    (h : ∀ t ∈ l, hits t ctx = none) (i : Nat) :
    (attemptFindAux ctx i l).1 = none := by
  induction l generalizing i with
  | nil => simp [attemptFindAux]
  | cons t rest ih =>
      obtain ⟨tr0, _, heq⟩ := miss_step (h t (by simp)) i rest
      rw [heq]
      exact ih (fun u hu => h u (by simp [hu])) (i + 1)

lemma fst_indep {Ctx α : Type} {ctx : Ctx} (l : List (Strategy Ctx α)) (i j : Nat) :
    (attemptFindAux ctx i l).1 = (attemptFindAux ctx j l).1 := by
  induction l generalizing i j with
  | nil => rfl
  | cons s rest ih =>
      cases hc : condPasses s ctx with
      | false =>
          simp [attemptFindAux, hc]
          exact ih (i + 1) (j + 1)
      | true =>
          cases hf : s.find ctx with
          | error e =>
              simp [attemptFindAux, hc, hf]
              exact ih (i + 1) (j + 1)
          | ok o =>
              cases o with
              | some l' => simp [attemptFindAux, hc, hf]
              | none =>
                  simp [attemptFindAux, hc, hf]
                  exact ih (i + 1) (j + 1)

lemma fst_drop_error {Ctx α : Type} {ctx : Ctx} {s : Strategy Ctx α} {e : String}
    (hc : condPasses s ctx = true) (hf : s.find ctx = Except.error e)
    (pre post : List (Strategy Ctx α)) (i : Nat) :
    (attemptFindAux ctx i (pre ++ s :: post)).1 =
      (attemptFindAux ctx i (pre ++ post)).1 := by
  induction pre generalizing i with
  | nil =>
      simp only [List.nil_append]
      simp [attemptFindAux, hc, hf]
      exact fst_indep post (i + 1) i
  | cons t pre' ih =>
      simp only [List.cons_append]
      cases hct : condPasses t ctx with
      | false =>
          simp [attemptFindAux, hct]
          exact ih (i + 1)
      | true =>
          cases hft : t.find ctx with
          | error m =>
              simp [attemptFindAux, hct, hft]
              exact ih (i + 1)
          | ok o =>
              cases o with
              | some l' => simp [attemptFindAux, hct, hft]
              | none =>
                  simp [attemptFindAux, hct, hft]
                  exact ih (i + 1)

lemma onSuccess_mem_aux {Ctx α : Type} {ctx : Ctx} (l : List (Strategy Ctx α)) :
    ∀ (i j : Nat) (loc : α),
      ChainEvent.onSuccessCalled j loc ∈ (attemptFindAux ctx i l).2 →
      ∃ (k : Nat) (s : Strategy Ctx α), j = i + k ∧ l.get? k = some s ∧
        condPasses s ctx = true ∧ s.find ctx = Except.ok (some loc) ∧
        (attemptFindAux ctx i l).1 = some ⟨loc, s.label, s.kind⟩ := by
  induction l with
  | nil =>
      intro i j loc h
      simp [attemptFindAux] at h
  | cons s rest ih =>
      intro i j loc h
      cases hc : condPasses s ctx with
      | false =>
          rw [show attemptFindAux ctx i (s :: rest) =
              ((attemptFindAux ctx (i + 1) rest).1,
                condEvents s ctx i ++ (attemptFindAux ctx (i + 1) rest).2) from by
            simp [attemptFindAux, hc]] at h ⊢
          rcases List.mem_append.mp h with h | h
          · exact absurd h onSuccess_not_mem_condEvents
          · obtain ⟨k, s', hj, hget, hcp, hfind, hfst⟩ := ih (i + 1) j loc h
            exact ⟨k + 1, s', by omega, by simpa using hget, hcp, hfind, hfst⟩
      | true =>
          cases hf : s.find ctx with
          | error e =>
              rw [show attemptFindAux ctx i (s :: rest) =
                  ((attemptFindAux ctx (i + 1) rest).1,
                    condEvents s ctx i ++ ChainEvent.findCalled i ::
                      ChainEvent.errorLogged i e ::
                        (attemptFindAux ctx (i + 1) rest).2) from by
                simp [attemptFindAux, hc, hf]] at h ⊢
              rcases List.mem_append.mp h with h | h
              · exact absurd h onSuccess_not_mem_condEvents
              · simp only [List.mem_cons] at h
                rcases h with h | h | h
                · exact absurd h (by simp)
                · exact absurd h (by simp)
                · obtain ⟨k, s', hj, hget, hcp, hfind, hfst⟩ := ih (i + 1) j loc h
                  exact ⟨k + 1, s', by omega, by simpa using hget, hcp, hfind, hfst⟩
          | ok o =>
              cases o with
              | some l' =>
                  rw [show attemptFindAux ctx i (s :: rest) =
                      (some ⟨l', s.label, s.kind⟩,
                        condEvents s ctx i ++ [ChainEvent.findCalled i,
                          ChainEvent.onSuccessCalled i l']) from by
                    simp [attemptFindAux, hc, hf]] at h ⊢
                  rcases List.mem_append.mp h with h | h
                  · exact absurd h onSuccess_not_mem_condEvents
                  · simp only [List.mem_cons, List.not_mem_nil, or_false] at h
                    rcases h with h | h
                    · exact absurd h (by simp)
                    · rcases (by simpa using h : j = i ∧ loc = l') with ⟨rfl, rfl⟩
                      exact ⟨0, s, by omega, rfl, hc, hf, rfl⟩
              | none =>
                  rw [show attemptFindAux ctx i (s :: rest) =
                      ((attemptFindAux ctx (i + 1) rest).1,
                        condEvents s ctx i ++ ChainEvent.findCalled i ::
                          ChainEvent.notFoundLogged i ::
                            (attemptFindAux ctx (i + 1) rest).2) from by
                    simp [attemptFindAux, hc, hf]] at h ⊢
                  rcases List.mem_append.mp h with h | h
                  · exact absurd h onSuccess_not_mem_condEvents
                  · simp only [List.mem_cons] at h
                    rcases h with h | h | h
                    · exact absurd h (by simp)
                    · exact absurd h (by simp)
                    · obtain ⟨k, s', hj, hget, hcp, hfind, hfst⟩ := ih (i + 1) j loc h
                      exact ⟨k + 1, s', by omega, by simpa using hget, hcp, hfind, hfst⟩

/-- A neutral environment: empty filesystem, nothing configured, every
resolver fails, consent denied, network down.  Concrete scenarios below
override individual fields. -/
def baseEnv : Env :=
  { pl := ⟨"linux", "x64"⟩, operatingMode := OperatingMode.SingleRoot,
    files := [], binSetting := BinSetting.unset,
    pnpResolve := fun _ _ => none,
    requireResolve1 := fun _ _ => RResult.notFound,
    requireResolve2 := fun _ _ => RResult.notFound,
    pathEnv := none, pathDelimiter := ':',
    globalStorageUri := "/store", getVersion := fun _ => none,
    downloadConsent := false, promptVersionPick := none, hasNewName := true,
    fetch := fun _ => Except.error "network unavailable",
    writeOutcome := Except.ok (), chmodOutcome := Except.ok (),
    mkdirOk := true, copyOk := true, chmodOk := true }

/-- A Yarn PnP workspace whose resolution API resolves the
platform-specific binary to a path that does not exist on disk. -/
def envC3 : Env :=
  { baseEnv with
    files := ["/proj/.pnp.cjs"],
    pnpResolve := fun req issuer =>
      if req = "@postgres-language-server/cli/package.json" ∧ issuer = "/proj" then
        some "/proj/.yarn/cli/package.json"
      else if req = "@postgres-language-server/cli-x86_64-linux-gnu/postgres-language-server" ∧
          issuer = "/proj/.yarn/cli/package.json" then
        some "/ghost/bin"
      else none }

/-- C1: For every strategy list and every resolution context, the chain
returns the result of the first strategy in list order whose
precondition (when defined) evaluates true and whose locate yields a
non-empty result, tagged with that strategy's label and kind; that
strategy's onSuccess hook fires with the result as the last action
before returning, and no strategy after that point is evaluated (every
trace event belongs to an index at most the winner's).  If no strategy
yields a result, the chain returns empty. -/
theorem chain_resolves_first_hit {Ctx α : Type} :
    (∀ (pre post : List (Strategy Ctx α)) (s : Strategy Ctx α) (ctx : Ctx) (loc : α),
      (∀ t ∈ pre, hits t ctx = none) → hits s ctx = some loc →
        (attemptFind (pre ++ s :: post) ctx).1 = some ⟨loc, s.label, s.kind⟩ ∧
        (attemptFind (pre ++ s :: post) ctx).2.getLast? =
          some (ChainEvent.onSuccessCalled pre.length loc) ∧
        (∀ e ∈ (attemptFind (pre ++ s :: post) ctx).2, e.idx ≤ pre.length)) ∧
    (∀ (l : List (Strategy Ctx α)) (ctx : Ctx),
      (∀ t ∈ l, hits t ctx = none) → (attemptFind l ctx).1 = none) := by
  constructor
  · intro pre post s ctx loc hmiss hhit
    obtain ⟨tr0, hidx, heq⟩ := skipMisses pre 0 (s :: post) hmiss
    simp only [Nat.zero_add] at hidx heq
    have hstep := hit_step hhit pre.length post
    unfold attemptFind
    rw [heq, hstep]
    refine ⟨rfl, ?_, ?_⟩
    · have hgroup :
          tr0 ++ (condEvents s ctx pre.length ++
            [ChainEvent.findCalled pre.length,
              ChainEvent.onSuccessCalled pre.length loc]) =
          ((tr0 ++ condEvents s ctx pre.length) ++
            [ChainEvent.findCalled pre.length]) ++
            [ChainEvent.onSuccessCalled pre.length loc] := by
        simp
      rw [hgroup]
      exact lastConcat _ _
    · intro e he
      rcases List.mem_append.mp he with he | he
      · have h3 := hidx e he
        omega
      · rcases List.mem_append.mp he with he | he
        · have h3 := condEvents_idx s ctx pre.length e he
          omega
        · simp at he
          rcases he with rfl | rfl <;> simp [ChainEvent.idx]
  · intro l ctx h
    exact allMiss_none l h 0

def wFound : Strategy Unit Nat :=
  { label := "hit", kind := StrategyKind.NPM,
    find := fun _ => Except.ok (some 7), condition := none }

def wMiss : Strategy Unit Nat :=
  { label := "miss", kind := StrategyKind.Path,
    find := fun _ => Except.ok none, condition := none }

def wErr : Strategy Unit Nat :=
  { label := "boom", kind := StrategyKind.Yarn,
    find := fun _ => Except.error "boom", condition := none }

/-- Witness for C1 at a concrete two-strategy list. -/
theorem chain_resolves_first_hit_check :
    (attemptFind ([wMiss] ++ wFound :: []) ()).1 =
      some ⟨7, "hit", StrategyKind.NPM⟩ ∧
    (attemptFind [wMiss, wErr] ()).1 = none := by
  constructor
  · exact ((@chain_resolves_first_hit Unit Nat).1 [wMiss] [] wFound () 7
      (by intro t ht; simp at ht; subst ht; rfl) rfl).1
  · exact (@chain_resolves_first_hit Unit Nat).2 [wMiss, wErr] ()
      (by intro t ht; simp at ht; rcases ht with rfl | rfl <;> rfl)

/-- C2: For every strategy list, a strategy whose locate throws is
caught and logged, treated as having produced no result (the chain's
result is the same as without that strategy), and the chain continues;
the error never escapes (`attemptFind` is total, returning an Option,
not an error). -/
theorem chain_error_caught {Ctx α : Type} :
    ∀ (pre post : List (Strategy Ctx α)) (s : Strategy Ctx α) (ctx : Ctx) (e : String),
      condPasses s ctx = true → s.find ctx = Except.error e →
      (attemptFind (pre ++ s :: post) ctx).1 = (attemptFind (pre ++ post) ctx).1 ∧
      ((∀ t ∈ pre, hits t ctx = none) →
        ChainEvent.errorLogged pre.length e ∈ (attemptFind (pre ++ s :: post) ctx).2) := by
  intro pre post s ctx e hc hf
  constructor
  · exact fst_drop_error hc hf pre post 0
  · intro hmiss
    obtain ⟨tr0, _, heq⟩ := skipMisses pre 0 (s :: post) hmiss
    simp only [Nat.zero_add] at heq
    unfold attemptFind
    rw [heq]
    have hstep : (attemptFindAux ctx pre.length (s :: post)).2 =
        condEvents s ctx pre.length ++ ChainEvent.findCalled pre.length ::
          ChainEvent.errorLogged pre.length e ::
            (attemptFindAux ctx (pre.length + 1) post).2 := by
      simp [attemptFindAux, hc, hf]
    simp only [hstep]
    simp

/-- Witness for C2 at a concrete list whose head strategy throws. -/
theorem chain_error_caught_check :
    (attemptFind [wErr, wFound] ()).1 = (attemptFind [wFound] ()).1 ∧
    ChainEvent.errorLogged 0 "boom" ∈ (attemptFind [wErr, wFound] ()).2 := by
  have h := @chain_error_caught Unit Nat [] [wFound] wErr () "boom" rfl rfl
  exact ⟨h.1, h.2 (by intro t ht; simp at ht)⟩

/-- C3 counterexample: in the LOCAL strategy chain over a Yarn PnP
workspace, the location `/ghost/bin` is accepted and `onSuccess` fires
with it although no file exists at that path — the chain performs no
independent existence re-check and the Yarn PnP strategy returns the
resolver's answer unchecked. -/
theorem chain_no_exists_recheck_cex :
    (attemptFind (localStrategies envC3) (some "/proj")).1 =
      some ⟨"/ghost/bin", "Yarn Plug\x27n\x27Play node_modules", StrategyKind.Yarn⟩ ∧
    ChainEvent.onSuccessCalled 2 "/ghost/bin" ∈
      (attemptFind (localStrategies envC3) (some "/proj")).2 ∧
    fileExists envC3 "/ghost/bin" = false := by
  refine ⟨by decide, by decide, by decide⟩

/-- C3 (amended): no independent existence re-check happens before
`onSuccess` fires; the chain accepts exactly the location the winning
strategy's locate returned, whatever it is.  (The Yarn PnP strategy in
particular may return a non-existent path, as the counterexample
shows.) -/
theorem chain_accepts_unvalidated {Ctx α : Type} :
    ∀ (l : List (Strategy Ctx α)) (ctx : Ctx) (i : Nat) (loc : α),
      ChainEvent.onSuccessCalled i loc ∈ (attemptFind l ctx).2 →
      ∃ s : Strategy Ctx α, l.get? i = some s ∧ condPasses s ctx = true ∧
        s.find ctx = Except.ok (some loc) ∧
        (attemptFind l ctx).1 = some ⟨loc, s.label, s.kind⟩ := by
  intro l ctx i loc h
  obtain ⟨k, s, hj, hget, hcp, hfind, hfst⟩ := onSuccess_mem_aux l 0 i loc h
  have hk : k = i := by omega
  subst hk
  exact ⟨s, hget, hcp, hfind, hfst⟩

/-- Witness for the amended C3 at a concrete chain. -/
theorem chain_accepts_unvalidated_check :
    ∃ s : Strategy Unit Nat, [wFound].get? 0 = some s ∧ condPasses s () = true ∧
      s.find () = Except.ok (some 7) ∧
      (attemptFind [wFound] ()).1 = some ⟨7, s.label, s.kind⟩ :=
  chain_accepts_unvalidated [wFound] () 0 7 (by decide)

lemma strData_append (a b : String) : (a ++ b).data = a.data ++ b.data := by
  cases a
  cases b
  rfl

lemma strExt {a b : String} (h : a.data = b.data) : a = b := by
  cases a
  cases b
  exact congrArg String.mk h

lemma strAppend_assoc (a b c : String) : a ++ b ++ c = a ++ (b ++ c) :=
  strExt (by rw [strData_append, strData_append, strData_append, strData_append,
    List.append_assoc])

lemma strLength_append (a b : String) : (a ++ b).length = a.length + b.length := by
  cases a with
  | mk d1 =>
      cases b with
      | mk d2 => exact List.length_append d1 d2

lemma append_slash_ne_empty (a b : String) : a ++ "/" ++ b ≠ "" := by
  intro h
  have h2 := congrArg String.length h
  rw [strLength_append, strLength_append] at h2
  have e1 : ("/" : String).length = 1 := rfl
  have e0 : ("" : String).length = 0 := rfl
  rw [e1, e0] at h2
  omega

/-- A binary whose file exists but whose version probe yields nothing
(the situation `createSession` and `getDownloadedBinary` treat as a
fatal invariant violation). -/
def envC4 : Env := { baseEnv with files := ["/bins/pglt"] }

/-- C4 evaluated at the failing input: `copyBinaryToTemporaryLocation`
on a binary that exists but yields no version shows a user-facing error
message and CONTINUES, returning a cache path that embeds the JS string
"undefined", instead of raising an unrecoverable internal error as the
sibling functions (`getDownloadedBinary`, `createSession`) do. -/
theorem provision_missing_version_continues :
    fileExists envC4 "/bins/pglt" = true ∧
    envC4.getVersion "/bins/pglt" = none ∧
    (copyBinaryToTemporaryLocation envC4 "/bins/pglt").userErrors =
      [provisionInvalidStateMsg] ∧
    (copyBinaryToTemporaryLocation envC4 "/bins/pglt").result =
      some "/store/tmp-bin/postgres-language-server-undefined" ∧
    (copyBinaryToTemporaryLocation envC4 "/bins/pglt").copies =
      [("/bins/pglt", "/store/tmp-bin/postgres-language-server-undefined")] := by
  refine ⟨by decide, rfl, by decide, by decide, by decide⟩

/-- Claim-side notion of a relative path (POSIX: not anchored at the
filesystem root). -/
def isRelativePath (s : String) : Bool := !(strStartsWith s "/")

/-- A workspace whose binary setting is the relative path "foo/bar"
(relative, but not starting with "."), with a single root "/proj" known
and the anchored file present. -/
def envC5 : Env :=
  { baseEnv with
    binSetting := BinSetting.str "foo/bar",
    files := ["/proj/foo/bar"] }

/-- C5 counterexample: "foo/bar" is a relative path, a single project
root "/proj" is known and `/proj/foo/bar` exists, yet the settings
strategy does not resolve `{root}/{relative}` (only paths starting with
"." are anchored; "foo/bar" is used as-is and not found); symmetrically,
in multi-root mode the same setting produces no user-facing error. -/
theorem settings_relative_path_cex :
    isRelativePath "foo/bar" = true ∧
    envC5.binSetting = BinSetting.str "foo/bar" ∧
    fileExists envC5 ("/proj" ++ "/" ++ "foo/bar") = true ∧
    (vsCodeSettingsFind envC5 (some "/proj")).1 ≠
      some ("/proj" ++ "/" ++ "foo/bar") ∧
    (vsCodeSettingsFind { envC5 with operatingMode := OperatingMode.MultiRoot }
      (some "/proj")).2 = [] := by
  refine ⟨by decide, by decide, by decide, by decide, by decide⟩

/-- C5 (amended): for a configured binary path that starts with ".",
the settings strategy resolves it to `{root}/{relative}` when a project
root is supplied outside multi-root mode (returning it when it exists),
and in multi-root mode shows a user-facing error message and returns
"not found" instead of crashing.  (Relative paths not starting with "."
take the plain-string branch, as the counterexample shows.) -/
theorem settings_dot_path_resolution :
    ∀ (env : Env) (s root : String),
      env.binSetting = BinSetting.str s → strStartsWith s "." = true →
      ((env.operatingMode ≠ OperatingMode.MultiRoot →
          fileExists env (root ++ "/" ++ s) = true →
          (vsCodeSettingsFind env (some root)).1 = some (root ++ "/" ++ s)) ∧
       (env.operatingMode = OperatingMode.MultiRoot → ∀ p : Option String,
          (vsCodeSettingsFind env p).1 = none ∧
          UiEvent.errorMessage multiRootErrorMsg ∈ (vsCodeSettingsFind env p).2)) := by
  intro env s root hb hdot
  have hs : s ≠ "" := by
    intro h
    rw [h] at hdot
    exact absurd hdot (by decide)
  constructor
  · intro hmode hex
    simp only [vsCodeSettingsFind, hb]
    rw [if_neg hs]
    simp only [settingsFromString]
    rw [if_pos hdot, if_neg hmode]
    simp only [settingsCheckExists]
    rw [if_neg (append_slash_ne_empty root s), if_pos hex]
  · intro hmode p
    simp only [vsCodeSettingsFind, hb]
    rw [if_neg hs]
    simp only [settingsFromString]
    rw [if_pos hdot, if_pos hmode]
    exact ⟨rfl, by simp⟩

/-- A dot-prefixed setting in a single-root workspace with the anchored
file present. -/
def envC5w : Env :=
  { baseEnv with
    binSetting := BinSetting.str "./bin/pglt",
    files := ["/proj/./bin/pglt"] }

/-- The same dot-prefixed setting in a multi-root workspace. -/
def envC5m : Env :=
  { baseEnv with
    binSetting := BinSetting.str "./bin/pglt",
    operatingMode := OperatingMode.MultiRoot }

/-- Witness for the amended C5 in both modes. -/
theorem settings_dot_path_resolution_check :
    (vsCodeSettingsFind envC5w (some "/proj")).1 = some "/proj/./bin/pglt" ∧
    ((vsCodeSettingsFind envC5m none).1 = none ∧
      UiEvent.errorMessage multiRootErrorMsg ∈ (vsCodeSettingsFind envC5m none).2) := by
  constructor
  · have h := (settings_dot_path_resolution envC5w "./bin/pglt" "/proj" rfl
      (by decide)).1 (by decide) (by decide)
    exact h.trans (by decide)
  · exact (settings_dot_path_resolution envC5m "./bin/pglt" "" rfl
      (by decide)).2 rfl none

/-- C6: provisioning is idempotent per version.  A first call with the
version-keyed cache path absent performs exactly one copy and returns
the cache path; a second call on the resulting filesystem (same binary,
same probed version) finds the file already present, performs no copy,
and returns the same cache path. -/
theorem provision_idempotent :
    ∀ (env : Env) (bin v : String),
      env.getVersion bin = some v →
      env.mkdirOk = true → env.copyOk = true → env.chmodOk = true →
      fileExists env (provisionCachePath env v) = false →
      (copyBinaryToTemporaryLocation env bin).result =
        some (provisionCachePath env v) ∧
      (copyBinaryToTemporaryLocation env bin).copies =
        [(bin, provisionCachePath env v)] ∧
      (copyBinaryToTemporaryLocation
        (env.addFile (provisionCachePath env v)) bin).result =
        some (provisionCachePath env v) ∧
      (copyBinaryToTemporaryLocation
        (env.addFile (provisionCachePath env v)) bin).copies = [] := by
  intro env bin v hv hmk hcp hch hex
  have e1 : copyBinaryToTemporaryLocation env bin =
      { result := some (provisionCachePath env v),
        copies := [(bin, provisionCachePath env v)],
        chmods := [provisionCachePath env v], userErrors := [],
        warned := false } := by
    simp [copyBinaryToTemporaryLocation, hv, hmk, hex, hcp, hch]
  have hex2 : fileExists (env.addFile (provisionCachePath env v))
      (provisionCachePath env v) = true := by
    simp [fileExists, Env.addFile, strContains]
  have hgv2 : (env.addFile (provisionCachePath env v)).getVersion bin = some v := hv
  have hpc : provisionCachePath (env.addFile (provisionCachePath env v)) v =
      provisionCachePath env v := rfl
  have hmk2 : (env.addFile (provisionCachePath env v)).mkdirOk = true := hmk
  have hch2 : (env.addFile (provisionCachePath env v)).chmodOk = true := hch
  have e2 : copyBinaryToTemporaryLocation
      (env.addFile (provisionCachePath env v)) bin =
      { result := some (provisionCachePath env v), copies := [],
        chmods := [provisionCachePath env v], userErrors := [],
        warned := false } := by
    simp [copyBinaryToTemporaryLocation, hgv2, hpc, hmk2, hch2, hex2]
  rw [e1, e2]
  exact ⟨rfl, rfl, rfl, rfl⟩

/-- A binary at "/orig/pglt" with probed version "1.0.0" over an empty
cache. -/
def envC6 : Env :=
  { baseEnv with
    getVersion := fun p => if p = "/orig/pglt" then some "1.0.0" else none }

/-- Witness for C6 at a concrete environment: one copy on the first
call, none on the second. -/
theorem provision_idempotent_check :
    (copyBinaryToTemporaryLocation envC6 "/orig/pglt").copies =
      [("/orig/pglt", provisionCachePath envC6 "1.0.0")] ∧
    (copyBinaryToTemporaryLocation
      (envC6.addFile (provisionCachePath envC6 "1.0.0")) "/orig/pglt").copies =
      [] := by
  have h := provision_idempotent envC6 "/orig/pglt" "1.0.0" (by decide) rfl rfl rfl
    (by decide)
  exact ⟨h.2.1, h.2.2.2⟩

/-- C7 counterexample: a successful provisioning call that performs a
copy sets the executable permission only on the cache path; the
original path "/orig/pglt" is never chmodded (the source reads the
original's executability for logging but calls `chmodSync` on
`location.fsPath`). -/
theorem provision_chmod_original_cex :
    (copyBinaryToTemporaryLocation envC6 "/orig/pglt").result =
      some (provisionCachePath envC6 "1.0.0") ∧
    (copyBinaryToTemporaryLocation envC6 "/orig/pglt").copies ≠ [] ∧
    "/orig/pglt" ∉ (copyBinaryToTemporaryLocation envC6 "/orig/pglt").chmods ∧
    provisionCachePath envC6 "1.0.0" ≠ "/orig/pglt" := by
  refine ⟨by decide, by decide, by decide, by decide⟩

/-- C7 (amended): every successful provisioning call sets the
executable permission bit exactly on the returned cache path (the
copy); the original path's executable bit is only read for logging,
never modified. -/
theorem provision_chmod_target :
    ∀ (env : Env) (bin loc : String),
      (copyBinaryToTemporaryLocation env bin).result = some loc →
      (copyBinaryToTemporaryLocation env bin).chmods = [loc] := by
  intro env bin loc h
  simp only [copyBinaryToTemporaryLocation] at h ⊢
  split_ifs at h ⊢ <;> simp_all

/-- Witness for the amended C7. -/
theorem provision_chmod_target_check :
    (copyBinaryToTemporaryLocation envC6 "/orig/pglt").chmods =
      [provisionCachePath envC6 "1.0.0"] :=
  provision_chmod_target envC6 "/orig/pglt" (provisionCachePath envC6 "1.0.0")
    (by decide)

/-- C8: when the network fetch of the release asset fails, the download
aborts with nothing written (and nothing chmodded), and the single
user-facing message contains both the selected version and the failing
URL. -/
theorem download_network_failure_aborts :
    ∀ (env : Env) (version e : String),
      env.fetch (downloadUrl env version) = Except.error e →
      (downloadPgltVersion env version).writes = [] ∧
      (downloadPgltVersion env version).chmods = [] ∧
      ∃ pre mid post,
        (downloadPgltVersion env version).messages =
          [pre ++ version ++ mid ++ downloadUrl env version ++ post] := by
  intro env version e h
  have hrun : downloadPgltVersion env version =
      { writes := [], chmods := [],
        messages := ["Failed to download binary version " ++ version ++
          " from " ++ downloadUrl env version ++ ".\n\n" ++ e] } := by
    simp [downloadPgltVersion, h]
  rw [hrun]
  exact ⟨rfl, rfl, "Failed to download binary version ", " from ", ".\n\n" ++ e,
    congrArg (fun x => [x]) (strAppend_assoc _ ".\n\n" e)⟩

/-- Witness for C8 at a concrete environment whose network is down. -/
theorem download_network_failure_aborts_check :
    (downloadPgltVersion baseEnv "1.2.3").writes = [] ∧
    (downloadPgltVersion baseEnv "1.2.3").chmods = [] ∧
    ∃ pre mid post,
      (downloadPgltVersion baseEnv "1.2.3").messages =
        [pre ++ "1.2.3" ++ mid ++ downloadUrl baseEnv "1.2.3" ++ post] :=
  download_network_failure_aborts baseEnv "1.2.3" "network unavailable" rfl

/-- C9: `getConfig` returns the new-prefix value exactly when it is
defined, non-null, not the empty string and not a boolean; otherwise it
returns the legacy-prefix value — in particular a boolean under the new
prefix is always ignored in favor of the legacy value. -/
theorem getConfig_prefix_fallback :
    ∀ (n o : ConfigVal),
      ((n ≠ ConfigVal.undef ∧ n ≠ ConfigVal.str "" ∧ n ≠ ConfigVal.nullv ∧
          n.isBoolean = false) → getConfig n o = n) ∧
      ((n = ConfigVal.undef ∨ n = ConfigVal.str "" ∨ n = ConfigVal.nullv ∨
          n.isBoolean = true) → getConfig n o = o) ∧
      (∀ b : Bool, getConfig (ConfigVal.boolv b) o = o) := by
  intro n o
  refine ⟨?_, ?_, ?_⟩
  · intro h
    simp [getConfig, h]
  · intro h
    rcases h with rfl | rfl | rfl | h
    · simp [getConfig]
    · simp [getConfig]
    · simp [getConfig]
    · cases n <;> simp_all [getConfig, ConfigVal.isBoolean]
  · intro b
    simp [getConfig, ConfigVal.isBoolean]

/-- Witness for C9: a usable string under the new prefix wins; a
boolean under the new prefix loses to the legacy value. -/
theorem getConfig_prefix_fallback_check :
    getConfig (ConfigVal.str "/new/bin") (ConfigVal.str "/old/bin") =
      ConfigVal.str "/new/bin" ∧
    getConfig (ConfigVal.boolv true) (ConfigVal.str "/old/bin") =
      ConfigVal.str "/old/bin" := by
  constructor
  · exact (getConfig_prefix_fallback (ConfigVal.str "/new/bin")
      (ConfigVal.str "/old/bin")).1 (by decide)
  · exact (getConfig_prefix_fallback (ConfigVal.boolv true)
      (ConfigVal.str "/old/bin")).2.2 true

/-- C10: the outdated-version notification is shown exactly when more
than 3 days have elapsed since the stored timestamp AND the installed
version is outdated; whenever the 3-day window has elapsed the stored
timestamp is overwritten with the current time (even when no
notification is shown), and otherwise left unchanged — hence within 3
days of any such overwrite no notification can be shown. -/
theorem session_update_notification_window :
    ∀ (now : Int) (stored : Option Int) (outdated hn : Bool)
      (kind : StrategyKind) (v latest : String),
      ((checkUpdateNotification now stored outdated hn kind v latest).1.isSome =
          true ↔ (now - stored.getD 0 > daysToMs 3 ∧ outdated = true)) ∧
      (now - stored.getD 0 > daysToMs 3 →
        (checkUpdateNotification now stored outdated hn kind v latest).2 =
          some now) ∧
      (¬(now - stored.getD 0 > daysToMs 3) →
        (checkUpdateNotification now stored outdated hn kind v latest).2 =
          stored) ∧
      (∀ (now2 : Int) (outdated2 hn2 : Bool) (kind2 : StrategyKind)
        (v2 l2 : String), now2 - now ≤ daysToMs 3 →
        (checkUpdateNotification now2 (some now) outdated2 hn2 kind2 v2 l2).1 =
          none) := by
  intro now stored outdated hn kind v latest
  refine ⟨?_, ?_, ?_, ?_⟩
  · by_cases h : now - stored.getD 0 > daysToMs 3
    · simp only [checkUpdateNotification, if_pos h]
      cases outdated <;> simp [h]
    · simp only [checkUpdateNotification, if_neg h]
      simp [h]
  · intro h
    simp only [checkUpdateNotification, if_pos h]
  · intro h
    simp only [checkUpdateNotification, if_neg h]
  · intro now2 o2 h2 k2 v2 l2 hle
    have hnot : ¬(now2 - (some now : Option Int).getD 0 > daysToMs 3) := by
      simp only [Option.getD_some, gt_iff_lt, not_lt]
      exact hle
    simp only [checkUpdateNotification, if_neg hnot]

/-- Witness for C10: the stored timestamp is refreshed after an elapsed
window even with a current version, and a check 1ms later shows
nothing. -/
theorem session_update_notification_window_check :
    ((checkUpdateNotification 300000000000 (some 0) false true
        StrategyKind.Path "1.0.0" "1.0.0").1.isSome = true ↔
      ((300000000000 : Int) - (some (0 : Int)).getD 0 > daysToMs 3 ∧
        false = true)) ∧
    (checkUpdateNotification 300000000000 (some 0) false true
      StrategyKind.Path "1.0.0" "1.0.0").2 = some 300000000000 ∧
    (checkUpdateNotification 300000000001 (some 300000000000) true true
      StrategyKind.Path "1.0.0" "2.0.0").1 = none := by
  have h := session_update_notification_window 300000000000 (some 0) false true
    StrategyKind.Path "1.0.0" "1.0.0"
  exact ⟨h.1, h.2.1 (by decide), h.2.2.2 300000000001 true true StrategyKind.Path
    "1.0.0" "2.0.0" (by decide)⟩

end Pgls
